import Mathlib

/-!
# Verification of the file-backed to-do store

A shallow embedding of the `db` package (file `todo.go`): a persistent
record store keeping to-do items in a JSON file, exposed through
CRUD-style operations plus a restore-from-backup copy.

Modelling conventions:

* Go's `map[int]ToDoItem` is an association list `List (Int × ToDoItem)`;
  `DbMap.insert` mirrors `m[k] = v` (replace in place, else append),
  `DbMap.lookup` mirrors `v, ok := m[k]`, `DbMap.erase` mirrors `delete`.
* The db file is carried in the state as `Option (List ToDoItem)`:
  `some l` is a readable file whose JSON array parses to the items `l`,
  `none` is a file that cannot be read or parsed (`loadDB` then errors,
  exactly as `os.ReadFile` / `json.Unmarshal` failing does).
* `writeOk` says whether `os.WriteFile` succeeds; on failure the file is
  left as it was.  `saves` is a ghost counter of `saveDB` invocations.
* Errors are an inductive type, one constructor per `errors.New` site of
  the source; `GoError.msg` reproduces the exact Go message strings.
-/

/-- The `ToDoItem` struct: `Id int`, `Title string`, `IsDone bool`
(JSON tags `id`, `title`, `done`). -/
structure ToDoItem where
  Id : Int
  Title : String
  IsDone : Bool
deriving DecidableEq, Repr

/-- `DbMap` is `map[int]ToDoItem`, modelled as an association list. -/
abbrev DbMap := List (Int × ToDoItem)

/-- Go map write `m[k] = v`: replace the entry with key `k` in place if one
exists, otherwise append a new entry. -/
def DbMap.insert (m : DbMap) (k : Int) (v : ToDoItem) : DbMap :=
  if m.any (fun p => p.1 == k) then
    m.map (fun p => if p.1 == k then (k, v) else p)
  else
    m ++ [(k, v)]

/-- Go map read `v, ok := m[k]` (as an option). -/
def DbMap.lookup (m : DbMap) (k : Int) : Option ToDoItem :=
  match m with
  | [] => none
  | p :: rest => if p.1 == k then some p.2 else DbMap.lookup rest k

/-- Go map membership test `_, ok := m[k]`. -/
def DbMap.contains (m : DbMap) (k : Int) : Bool :=
  m.any (fun p => p.1 == k)

/-- Go `delete(m, k)`. -/
def DbMap.erase (m : DbMap) (k : Int) : DbMap :=
  m.filter (fun p => !(p.1 == k))

/-- The value slice built by `for _, item := range t.toDoMap`
(in `saveDB` and `GetAllItems`). -/
def DbMap.values (m : DbMap) : List ToDoItem :=
  m.map (fun p => p.2)

/-- Well-formedness of the association list as a picture of a Go map:
keys are distinct, and every entry is keyed by its item's `Id` (all
writes in the source are of the form `m[item.Id] = item`). -/
def DbMap.WF (m : DbMap) : Prop :=
  (m.map Prod.fst).Nodup ∧ ∀ p ∈ m, p.1 = p.2.Id

instance (m : DbMap) : Decidable (DbMap.WF m) := by
  unfold DbMap.WF
  infer_instance

/-- The errors produced by the `db` package, one constructor per
`errors.New` site.  `failedLoad`/`failedSave` also stand for the raw
`os`/`json` errors returned by the helpers `loadDB`/`saveDB`: every
caller in the source discards that raw error and returns its own
fixed message, so only their presence matters. -/
inductive GoError where
  | failedLoad
  | failedSave
  | duplicateItem
  | getNotFound (id : Int)
  | updateNotFound (id : Int)
  | deleteNotFound (id : Int)
  | openFailed (name : String)
  | readFailed (name : String)
deriving DecidableEq, Repr

/-- The exact message strings of the source (`\x27` is the apostrophe). -/
def GoError.msg : GoError → String
  | GoError.failedLoad => "Failed to load the database."
  | GoError.failedSave => "Failed to save to the database."
  | GoError.duplicateItem => "The item provided already exists in the database."
  | GoError.getNotFound id =>
      "Couldn\x27t get item because the id " ++ toString id ++ " doesn\x27t exist"
  | GoError.updateNotFound id =>
      "Couldn\x27t update item because the id " ++ toString id ++ " doesn\x27t exist"
  | GoError.deleteNotFound id =>
      "Couldn\x27t delete item because the id " ++ toString id ++ " doesn\x27t exist"
  | GoError.openFailed name => "failed to open " ++ name
  | GoError.readFailed name => "failed to read from " ++ name

/-- The state a `ToDo` value operates on: the in-memory map, the db file
(`none` when unreadable/unparseable), whether writes succeed, and a ghost
count of `saveDB` invocations. -/
structure DbState where
  toDoMap : DbMap
  file : Option (List ToDoItem)
  writeOk : Bool
  saves : Nat
deriving DecidableEq, Repr

/-- `loadDB`: read and parse the file, then insert every parsed item into
the map keyed by its `Id` (`t.toDoMap[item.Id] = item` in a range loop).
The map is not cleared first. -/
def mergeItems (m : DbMap) (l : List ToDoItem) : DbMap :=
  l.foldl (fun acc item => DbMap.insert acc item.Id item) m

def loadDB (s : DbState) : Except GoError Unit × DbState :=
  match s.file with
  | none => (Except.error GoError.failedLoad, s)
  | some l => (Except.ok (), { s with toDoMap := mergeItems s.toDoMap l })

/-- `saveDB`: marshal the map's value slice and `os.WriteFile` it,
overwriting the file in full.  On a failed write the file is kept as it
was (the source promises nothing there). -/
def saveDB (s : DbState) : Except GoError Unit × DbState :=
  if s.writeOk then
    (Except.ok (), { s with file := some (DbMap.values s.toDoMap), saves := s.saves + 1 })
  else
    (Except.error GoError.failedSave, { s with saves := s.saves + 1 })

/-- `AddItem`: load, reject a present key, insert, save. -/
def AddItem (s : DbState) (item : ToDoItem) : Except GoError Unit × DbState :=
  match loadDB s with
  | (Except.error _, s1) => (Except.error GoError.failedLoad, s1)
  | (Except.ok _, s1) =>
    if DbMap.contains s1.toDoMap item.Id then
      (Except.error GoError.duplicateItem, s1)
    else
      let s2 := { s1 with toDoMap := DbMap.insert s1.toDoMap item.Id item }
      match saveDB s2 with
      | (Except.error _, s3) => (Except.error GoError.failedSave, s3)
      | (Except.ok _, s3) => (Except.ok (), s3)

/-- `DeleteItem`: load, delete a present key and save, else error. -/
def DeleteItem (s : DbState) (id : Int) : Except GoError Unit × DbState :=
  match loadDB s with
  | (Except.error _, s1) => (Except.error GoError.failedLoad, s1)
  | (Except.ok _, s1) =>
    if DbMap.contains s1.toDoMap id then
      let s2 := { s1 with toDoMap := DbMap.erase s1.toDoMap id }
      match saveDB s2 with
      | (Except.error _, s3) => (Except.error GoError.failedSave, s3)
      | (Except.ok _, s3) => (Except.ok (), s3)
    else
      (Except.error (GoError.deleteNotFound id), s1)

/-- `UpdateItem`: load, overwrite a present key and save, else error. -/
def UpdateItem (s : DbState) (item : ToDoItem) : Except GoError Unit × DbState :=
  match loadDB s with
  | (Except.error _, s1) => (Except.error GoError.failedLoad, s1)
  | (Except.ok _, s1) =>
    if DbMap.contains s1.toDoMap item.Id then
      let s2 := { s1 with toDoMap := DbMap.insert s1.toDoMap item.Id item }
      match saveDB s2 with
      | (Except.error _, s3) => (Except.error GoError.failedSave, s3)
      | (Except.ok _, s3) => (Except.ok (), s3)
    else
      (Except.error (GoError.updateNotFound item.Id), s1)

/-- `GetItem`: load, return the item at a present key, else error with the
zero item. -/
def GetItem (s : DbState) (id : Int) : Except GoError ToDoItem × DbState :=
  match loadDB s with
  | (Except.error _, s1) => (Except.error GoError.failedLoad, s1)
  | (Except.ok _, s1) =>
    match DbMap.lookup s1.toDoMap id with
    | some item => (Except.ok item, s1)
    | none => (Except.error (GoError.getNotFound id), s1)

/-- `GetAllItems`: load, return the value slice. -/
def GetAllItems (s : DbState) : Except GoError (List ToDoItem) × DbState :=
  match loadDB s with
  | (Except.error _, s1) => (Except.error GoError.failedLoad, s1)
  | (Except.ok _, s1) => (Except.ok (DbMap.values s1.toDoMap), s1)

/-- `ChangeItemDoneStatus`: `GetItem`, rebuild the item with the new
status, `UpdateItem`; either error is returned unchanged. -/
def ChangeItemDoneStatus (s : DbState) (id : Int) (value : Bool) :
    Except GoError Unit × DbState :=
  match GetItem s id with
  | (Except.error e, s1) => (Except.error e, s1)
  | (Except.ok toDoItem, s1) =>
    let updatedItem : ToDoItem :=
      { Id := toDoItem.Id, Title := toDoItem.Title, IsDone := value }
    match UpdateItem s1 updatedItem with
    | (Except.error e, s2) => (Except.error e, s2)
    | (Except.ok _, s2) => (Except.ok (), s2)

/-- The last item of `l` whose `Id` is `id` (what repeated keyed insertion
leaves in the map). -/
def findLast (l : List ToDoItem) (id : Int) : Option ToDoItem :=
  match l with
  | [] => none
  | x :: rest =>
    match findLast rest id with
    | some y => some y
    | none => if x.Id == id then some x else none

/-! ## Association-list map lemmas -/

theorem DbMap.lookup_map_replace_ne (m : DbMap) (k j : Int) (v : ToDoItem)
    (hjk : j ≠ k) :
    DbMap.lookup (m.map (fun p => if p.1 == k then (k, v) else p)) j =
      DbMap.lookup m j := by
  induction m with
  | nil => rfl
  | cons p rest ih =>
    by_cases hpk : p.1 = k
    · have h1 : (k == j) = false := by simpa using fun h => hjk h.symm
      simp only [List.map_cons, DbMap.lookup, hpk, beq_self_eq_true, if_true, h1]
      simpa using ih
    · have hck : (p.1 == k) = false := by simpa using hpk
      simp only [List.map_cons, DbMap.lookup, hck, if_false, Bool.false_eq_true]
      by_cases hpj : p.1 = j
      · simp [hpj]
      · have hcj : (p.1 == j) = false := by simpa using hpj
        simp only [hcj, if_false, Bool.false_eq_true, ih]

theorem DbMap.lookup_map_replace_self (m : DbMap) (k : Int) (v : ToDoItem)
    (h : m.any (fun p => p.1 == k) = true) :
    DbMap.lookup (m.map (fun p => if p.1 == k then (k, v) else p)) k = some v := by
  induction m with
  | nil => simp at h
  | cons p rest ih =>
    by_cases hpk : p.1 = k
    · simp [DbMap.lookup, hpk]
    · have hck : (p.1 == k) = false := by simpa using hpk
      simp only [List.any_cons, hck, Bool.false_or] at h
      simp only [List.map_cons, DbMap.lookup, hck, if_false, Bool.false_eq_true]
      exact ih h

theorem DbMap.lookup_append (m1 m2 : DbMap) (j : Int) :
    DbMap.lookup (m1 ++ m2) j =
      match DbMap.lookup m1 j with
      | some v => some v
      | none => DbMap.lookup m2 j := by
  induction m1 with
  | nil => rfl
  | cons p rest ih =>
    by_cases hpj : p.1 = j
    · simp [DbMap.lookup, hpj]
    · have hcj : (p.1 == j) = false := by simpa using hpj
      simp only [List.cons_append, DbMap.lookup, hcj, if_false, Bool.false_eq_true]
      simpa using ih

theorem DbMap.contains_eq_isSome_lookup (m : DbMap) (k : Int) :
    DbMap.contains m k = (DbMap.lookup m k).isSome := by
  induction m with
  | nil => rfl
  | cons p rest ih =>
    by_cases hpk : p.1 = k
    · simp [DbMap.contains, DbMap.lookup, hpk]
    · have hck : (p.1 == k) = false := by simpa using hpk
      simp only [DbMap.contains, List.any_cons, hck, Bool.false_or, DbMap.lookup,
        if_false, Bool.false_eq_true]
      exact ih

theorem DbMap.lookup_insert (m : DbMap) (k : Int) (v : ToDoItem) (j : Int) :
    DbMap.lookup (DbMap.insert m k v) j =
      if j = k then some v else DbMap.lookup m j := by
  unfold DbMap.insert
  by_cases h : m.any (fun p => p.1 == k) = true
  · rw [if_pos h]
    by_cases hjk : j = k
    · rw [if_pos hjk, hjk, DbMap.lookup_map_replace_self m k v h]
    · rw [if_neg hjk, DbMap.lookup_map_replace_ne m k j v hjk]
  · rw [if_neg h, DbMap.lookup_append]
    by_cases hjk : j = k
    · subst hjk
      have hnone : DbMap.lookup m j = none := by
        cases hm : DbMap.lookup m j with
        | none => rfl
        | some v2 =>
          exfalso
          apply h
          have hc := DbMap.contains_eq_isSome_lookup m j
          unfold DbMap.contains at hc
          rw [hc, hm]
          rfl
      rw [if_pos rfl, hnone]
      simp [DbMap.lookup]
    · rw [if_neg hjk]
      have hcj : (k == j) = false := by simpa using fun h2 => hjk h2.symm
      cases hm : DbMap.lookup m j with
      | some v2 => rfl
      | none => simp [DbMap.lookup, hcj]

theorem mergeItems_cons (m : DbMap) (x : ToDoItem) (rest : List ToDoItem) :
    mergeItems m (x :: rest) = mergeItems (DbMap.insert m x.Id x) rest := rfl

theorem lookup_mergeItems (m : DbMap) (l : List ToDoItem) (j : Int) :
    DbMap.lookup (mergeItems m l) j =
      match findLast l j with
      | some x => some x
      | none => DbMap.lookup m j := by
  induction l generalizing m with
  | nil => rfl
  | cons x rest ih =>
    rw [mergeItems_cons, ih]
    cases hfl : findLast rest j with
    | some y => simp [findLast, hfl]
    | none =>
      simp only [findLast, hfl]
      rw [DbMap.lookup_insert]
      by_cases hj : j = x.Id
      · rw [if_pos hj]
        have : (x.Id == j) = true := by simpa using hj.symm
        simp [this]
      · rw [if_neg hj]
        have : (x.Id == j) = false := by simpa using fun h => hj h.symm
        simp [this]

/-! ## Well-formedness of reachable maps -/

theorem DbMap.WF_insert_id (m : DbMap) (v : ToDoItem) (h : DbMap.WF m) :
    DbMap.WF (DbMap.insert m v.Id v) := by
  obtain ⟨hnd, hids⟩ := h
  unfold DbMap.insert
  by_cases hc : m.any (fun p => p.1 == v.Id) = true
  · rw [if_pos hc]
    constructor
    · have hkeys : (m.map (fun p => if p.1 == v.Id then (v.Id, v) else p)).map Prod.fst =
          m.map Prod.fst := by
        rw [List.map_map]
        apply List.map_congr_left
        intro p _
        by_cases hp : p.1 = v.Id
        · simp [hp]
        · simp [hp]
      rw [hkeys]
      exact hnd
    · intro p hp
      obtain ⟨q, _, hq⟩ := List.mem_map.mp hp
      by_cases hqk : q.1 = v.Id
      · rw [← hq]
        simp [hqk]
      · have : (q.1 == v.Id) = false := by simpa using hqk
        rw [← hq]
        simp only [this, if_false, Bool.false_eq_true]
        exact hids q (by assumption)
  · rw [if_neg hc]
    constructor
    · rw [List.map_append]
      apply List.Nodup.append hnd (by simp)
      intro a ha hb
      simp only [List.map_cons, List.map_nil, List.mem_singleton] at hb
      subst hb
      obtain ⟨q, hqm, hq⟩ := List.mem_map.mp ha
      apply hc
      apply List.any_eq_true.mpr
      exact ⟨q, hqm, by simpa using hq⟩
    · intro p hp
      rcases List.mem_append.mp hp with hml | hsg
      · exact hids p hml
      · simp only [List.mem_singleton] at hsg
        subst hsg
        rfl

theorem DbMap.WF_mergeItems (m : DbMap) (l : List ToDoItem) (h : DbMap.WF m) :
    DbMap.WF (mergeItems m l) := by
  induction l generalizing m with
  | nil => exact h
  | cons x rest ih =>
    rw [mergeItems_cons]
    exact ih _ (DbMap.WF_insert_id m x h)

theorem DbMap.key_inj (m : DbMap) (hnd : (m.map Prod.fst).Nodup)
    (p q : Int × ToDoItem) (hp : p ∈ m) (hq : q ∈ m) (hk : p.1 = q.1) : p = q := by
  induction m with
  | nil => cases hp
  | cons r rest ih =>
    have hhead : r.1 ∉ rest.map Prod.fst := (List.nodup_cons.mp hnd).1
    have htail : (rest.map Prod.fst).Nodup := (List.nodup_cons.mp hnd).2
    rcases List.mem_cons.mp hp with hp1 | hp1 <;>
      rcases List.mem_cons.mp hq with hq1 | hq1
    · rw [hp1, hq1]
    · exfalso
      apply hhead
      have hrq : r.1 = q.1 := by rw [← hp1]; exact hk
      rw [hrq]
      exact List.mem_map.mpr ⟨q, hq1, rfl⟩
    · exfalso
      apply hhead
      have hrp : r.1 = p.1 := by rw [← hq1]; exact hk.symm
      rw [hrp]
      exact List.mem_map.mpr ⟨p, hp1, rfl⟩
    · exact ih htail hp1 hq1

theorem DbMap.insert_mem_self (m : DbMap) (p : Int × ToDoItem)
    (hwf : DbMap.WF m) (hp : p ∈ m) : DbMap.insert m p.1 p.2 = m := by
  unfold DbMap.insert
  have hany : m.any (fun q => q.1 == p.1) = true :=
    List.any_eq_true.mpr ⟨p, hp, by simp⟩
  rw [if_pos hany]
  have : ∀ q ∈ m, (if q.1 == p.1 then (p.1, p.2) else q) = q := by
    intro q hq
    by_cases hqp : q.1 = p.1
    · have hqe : q = p := DbMap.key_inj m hwf.1 q p hq hp hqp
      simp [hqe]
    · have : (q.1 == p.1) = false := by simpa using hqp
      simp [this]
  rw [List.map_congr_left this]
  simp

theorem mergeItems_of_mem (m : DbMap) (l : List ToDoItem) (hwf : DbMap.WF m)
    (hl : ∀ x ∈ l, (x.Id, x) ∈ m) : mergeItems m l = m := by
  induction l with
  | nil => rfl
  | cons x rest ih =>
    rw [mergeItems_cons]
    have hx : (x.Id, x) ∈ m := hl x (List.mem_cons_self x rest)
    have : DbMap.insert m x.Id x = m := DbMap.insert_mem_self m (x.Id, x) hwf hx
    rw [this]
    exact ih fun y hy => hl y (List.mem_cons_of_mem x hy)

theorem mergeItems_values_self (m : DbMap) (hwf : DbMap.WF m) :
    mergeItems m (DbMap.values m) = m := by
  apply mergeItems_of_mem m _ hwf
  intro x hx
  obtain ⟨p, hpm, hp⟩ := List.mem_map.mp hx
  have hid : p.1 = p.2.Id := hwf.2 p hpm
  rw [← hp, ← hid]
  exact hpm

theorem DbMap.Id_of_lookup (m : DbMap) (hids : ∀ p ∈ m, p.1 = p.2.Id)
    {j : Int} {v : ToDoItem} (hj : DbMap.lookup m j = some v) : v.Id = j := by
  induction m with
  | nil => cases hj
  | cons p rest ih =>
    unfold DbMap.lookup at hj
    by_cases hpj : p.1 = j
    · have : (p.1 == j) = true := by simpa using hpj
      rw [this, if_pos rfl] at hj
      have hv : p.2 = v := by injection hj
      rw [← hv, ← hids p (List.mem_cons_self p rest), hpj]
    · have : (p.1 == j) = false := by simpa using hpj
      rw [this] at hj
      simp only [Bool.false_eq_true, if_false] at hj
      exact ih (fun q hq => hids q (List.mem_cons_of_mem p hq)) hj

theorem DbMap.mem_keys_of_lookup (m : DbMap) {j : Int} {v : ToDoItem}
    (hj : DbMap.lookup m j = some v) : j ∈ m.map Prod.fst := by
  induction m with
  | nil => cases hj
  | cons p rest ih =>
    unfold DbMap.lookup at hj
    by_cases hpj : p.1 = j
    · simp only [List.map_cons, hpj]
      exact List.mem_cons_self _ _
    · have : (p.1 == j) = false := by simpa using hpj
      rw [this] at hj
      simp only [Bool.false_eq_true, if_false] at hj
      exact List.mem_cons_of_mem _ (ih hj)

theorem findLast_values (m : DbMap) (hwf : DbMap.WF m) (j : Int) :
    findLast (DbMap.values m) j = DbMap.lookup m j := by
  induction m with
  | nil => rfl
  | cons p rest ih =>
    have hhead : p.1 ∉ rest.map Prod.fst := (List.nodup_cons.mp hwf.1).1
    have hwft : DbMap.WF rest :=
      ⟨(List.nodup_cons.mp hwf.1).2, fun q hq => hwf.2 q (List.mem_cons_of_mem p hq)⟩
    have hpid : p.1 = p.2.Id := hwf.2 p (List.mem_cons_self p rest)
    show findLast (p.2 :: DbMap.values rest) j = DbMap.lookup (p :: rest) j
    unfold findLast
    rw [ih hwft]
    cases hm : DbMap.lookup rest j with
    | some y =>
      have hjmem : j ∈ rest.map Prod.fst := DbMap.mem_keys_of_lookup rest hm
      have hpj : (p.1 == j) = false := by
        simp only [beq_eq_false_iff_ne, ne_eq]
        intro hh
        exact hhead (hh ▸ hjmem)
      show some y = DbMap.lookup (p :: rest) j
      unfold DbMap.lookup
      rw [hpj]
      simp only [Bool.false_eq_true, if_false, hm]
    | none =>
      show (if p.2.Id == j then some p.2 else none) = DbMap.lookup (p :: rest) j
      unfold DbMap.lookup
      rw [← hpid, hm]

/-! ## Behaviour of the operations on an explicit state -/

theorem contains_false_of_lookup_none (m : DbMap) (k : Int)
    (h : DbMap.lookup m k = none) : DbMap.contains m k = false := by
  rw [DbMap.contains_eq_isSome_lookup, h]
  rfl

theorem contains_true_of_lookup_some (m : DbMap) (k : Int) (v : ToDoItem)
    (h : DbMap.lookup m k = some v) : DbMap.contains m k = true := by
  rw [DbMap.contains_eq_isSome_lookup, h]
  rfl

theorem AddItem_ok (m : DbMap) (l : List ToDoItem) (n : Nat) (i : ToDoItem)
    (habs : DbMap.lookup (mergeItems m l) i.Id = none) :
    AddItem ⟨m, some l, true, n⟩ i =
      (Except.ok (),
       ⟨DbMap.insert (mergeItems m l) i.Id i,
        some (DbMap.values (DbMap.insert (mergeItems m l) i.Id i)), true, n + 1⟩) := by
  have hcon := contains_false_of_lookup_none _ _ habs
  unfold AddItem loadDB saveDB
  simp [hcon]

theorem AddItem_dup (m : DbMap) (l : List ToDoItem) (w : Bool) (n : Nat)
    (i : ToDoItem) (v : ToDoItem)
    (hpres : DbMap.lookup (mergeItems m l) i.Id = some v) :
    AddItem ⟨m, some l, w, n⟩ i =
      (Except.error GoError.duplicateItem, ⟨mergeItems m l, some l, w, n⟩) := by
  have hcon := contains_true_of_lookup_some _ _ _ hpres
  unfold AddItem loadDB
  simp [hcon]

theorem DeleteItem_absent (m : DbMap) (l : List ToDoItem) (w : Bool) (n : Nat)
    (id : Int) (habs : DbMap.lookup (mergeItems m l) id = none) :
    DeleteItem ⟨m, some l, w, n⟩ id =
      (Except.error (GoError.deleteNotFound id), ⟨mergeItems m l, some l, w, n⟩) := by
  have hcon := contains_false_of_lookup_none _ _ habs
  unfold DeleteItem loadDB
  simp [hcon]

theorem UpdateItem_ok (m : DbMap) (l : List ToDoItem) (n : Nat)
    (i : ToDoItem) (v : ToDoItem)
    (hpres : DbMap.lookup (mergeItems m l) i.Id = some v) :
    UpdateItem ⟨m, some l, true, n⟩ i =
      (Except.ok (),
       ⟨DbMap.insert (mergeItems m l) i.Id i,
        some (DbMap.values (DbMap.insert (mergeItems m l) i.Id i)), true, n + 1⟩) := by
  have hcon := contains_true_of_lookup_some _ _ _ hpres
  unfold UpdateItem loadDB saveDB
  simp [hcon]

theorem GetItem_found (m : DbMap) (l : List ToDoItem) (w : Bool) (n : Nat)
    (id : Int) (v : ToDoItem)
    (hpres : DbMap.lookup (mergeItems m l) id = some v) :
    GetItem ⟨m, some l, w, n⟩ id = (Except.ok v, ⟨mergeItems m l, some l, w, n⟩) := by
  unfold GetItem loadDB
  simp [hpres]

theorem GetItem_notFound (m : DbMap) (l : List ToDoItem) (w : Bool) (n : Nat)
    (id : Int) (habs : DbMap.lookup (mergeItems m l) id = none) :
    GetItem ⟨m, some l, w, n⟩ id =
      (Except.error (GoError.getNotFound id), ⟨mergeItems m l, some l, w, n⟩) := by
  unfold GetItem loadDB
  simp [habs]

/-! ## Claims about the CRUD operations -/

/-- C3: for every file content that parses as a JSON array of items,
`loadDB` succeeds and inserts each parsed item into the in-memory map
keyed by its id; a later entry with a duplicate id overwrites an earlier
one (the lookup afterwards sees the last entry of the file bearing the
id), and entries already in memory whose ids are absent from the file are
kept (merge without clearing). -/
theorem loadDB_merges_without_clearing (m : DbMap) (l : List ToDoItem)
    (w : Bool) (n : Nat) (j : Int) :
    (loadDB ⟨m, some l, w, n⟩).1 = Except.ok () ∧
    DbMap.lookup (loadDB ⟨m, some l, w, n⟩).2.toDoMap j =
      (match findLast l j with
       | some x => some x
       | none => DbMap.lookup m j) := by
  constructor
  · rfl
  · exact lookup_mergeItems m l j

/-- C5: adding an item whose id is not present (file readable, writes
succeeding) succeeds, and a subsequent `GetItem` of that id returns the
very item. -/
theorem AddItem_GetItem_roundtrip (m : DbMap) (l : List ToDoItem) (n : Nat)
    (i : ToDoItem) (hwf : DbMap.WF m)
    (habs : DbMap.lookup (mergeItems m l) i.Id = none) :
    (AddItem ⟨m, some l, true, n⟩ i).1 = Except.ok () ∧
    (GetItem (AddItem ⟨m, some l, true, n⟩ i).2 i.Id).1 = Except.ok i := by
  rw [AddItem_ok m l n i habs]
  refine ⟨rfl, ?_⟩
  have hwf2 : DbMap.WF (DbMap.insert (mergeItems m l) i.Id i) :=
    DbMap.WF_insert_id _ i (DbMap.WF_mergeItems m l hwf)
  have hself := mergeItems_values_self _ hwf2
  have hlook : DbMap.lookup (DbMap.insert (mergeItems m l) i.Id i) i.Id = some i := by
    rw [DbMap.lookup_insert]
    simp
  have hload : DbMap.lookup
      (mergeItems (DbMap.insert (mergeItems m l) i.Id i)
        (DbMap.values (DbMap.insert (mergeItems m l) i.Id i))) i.Id = some i := by
    rw [hself]
    exact hlook
  rw [GetItem_found _ _ _ _ _ _ hload]

theorem AddItem_GetItem_roundtrip_witness :
    (AddItem ⟨[], some [], true, 0⟩ ⟨1, "Learn", false⟩).1 = Except.ok () ∧
    (GetItem (AddItem ⟨[], some [], true, 0⟩ ⟨1, "Learn", false⟩).2 1).1 =
      Except.ok ⟨1, "Learn", false⟩ :=
  AddItem_GetItem_roundtrip [] [] 0 ⟨1, "Learn", false⟩ (by decide) (by decide)

/-- C4 (counterexample): the duplicate-key error does not carry the
offending id.  Adding id 7 twice fails with `duplicateItem`, whose
message is the fixed string
"The item provided already exists in the database." in which the id
`7` does not occur. -/
theorem AddItem_duplicate_error_lacks_id :
    (AddItem (AddItem ⟨[], some [], true, 0⟩ ⟨7, "a", false⟩).2 ⟨7, "b", true⟩).1 =
      Except.error GoError.duplicateItem ∧
    ¬ (toString (7 : Int)).data <:+: (GoError.msg GoError.duplicateItem).data := by
  exact ⟨rfl, by decide⟩

/-- C4 (amended): after a successful `AddItem i` from a well-formed
store, a second `AddItem` of any item with the same id fails with the
duplicate-key error (a fixed message that does not carry the id), the
stored value for that id stays `i` both in the map and in the file, the
file is not rewritten and `saveDB` is not invoked again. -/
theorem AddItem_duplicate_keeps_first (m : DbMap) (l : List ToDoItem) (n : Nat)
    (i j : ToDoItem) (hwf : DbMap.WF m)
    (habs : DbMap.lookup (mergeItems m l) i.Id = none)
    (hid : j.Id = i.Id) :
    (AddItem (AddItem ⟨m, some l, true, n⟩ i).2 j).1 =
      Except.error GoError.duplicateItem ∧
    DbMap.lookup (AddItem (AddItem ⟨m, some l, true, n⟩ i).2 j).2.toDoMap i.Id =
      some i ∧
    (AddItem (AddItem ⟨m, some l, true, n⟩ i).2 j).2.file =
      (AddItem ⟨m, some l, true, n⟩ i).2.file ∧
    findLast (DbMap.values (DbMap.insert (mergeItems m l) i.Id i)) i.Id = some i ∧
    (AddItem (AddItem ⟨m, some l, true, n⟩ i).2 j).2.saves =
      (AddItem ⟨m, some l, true, n⟩ i).2.saves := by
  rw [AddItem_ok m l n i habs]
  have hwf2 : DbMap.WF (DbMap.insert (mergeItems m l) i.Id i) :=
    DbMap.WF_insert_id _ i (DbMap.WF_mergeItems m l hwf)
  have hself := mergeItems_values_self _ hwf2
  have hlooki : DbMap.lookup (DbMap.insert (mergeItems m l) i.Id i) i.Id = some i := by
    rw [DbMap.lookup_insert]
    simp
  have hloadj : DbMap.lookup
      (mergeItems (DbMap.insert (mergeItems m l) i.Id i)
        (DbMap.values (DbMap.insert (mergeItems m l) i.Id i))) j.Id = some i := by
    rw [hself, hid]
    exact hlooki
  rw [AddItem_dup _ _ _ _ _ _ hloadj]
  refine ⟨rfl, ?_, rfl, ?_, rfl⟩
  · show DbMap.lookup
      (mergeItems (DbMap.insert (mergeItems m l) i.Id i)
        (DbMap.values (DbMap.insert (mergeItems m l) i.Id i))) i.Id = some i
    rw [hself]
    exact hlooki
  · rw [findLast_values _ hwf2]
    exact hlooki

theorem AddItem_duplicate_keeps_first_witness :
    (AddItem (AddItem ⟨[], some [], true, 0⟩ ⟨7, "a", false⟩).2 ⟨7, "b", true⟩).1 =
      Except.error GoError.duplicateItem ∧
    DbMap.lookup
        (AddItem (AddItem ⟨[], some [], true, 0⟩ ⟨7, "a", false⟩).2 ⟨7, "b", true⟩).2.toDoMap
        7 = some ⟨7, "a", false⟩ ∧
    (AddItem (AddItem ⟨[], some [], true, 0⟩ ⟨7, "a", false⟩).2 ⟨7, "b", true⟩).2.file =
      (AddItem ⟨[], some [], true, 0⟩ ⟨7, "a", false⟩).2.file ∧
    findLast (DbMap.values (DbMap.insert (mergeItems [] []) 7 ⟨7, "a", false⟩)) 7 =
      some ⟨7, "a", false⟩ ∧
    (AddItem (AddItem ⟨[], some [], true, 0⟩ ⟨7, "a", false⟩).2 ⟨7, "b", true⟩).2.saves =
      (AddItem ⟨[], some [], true, 0⟩ ⟨7, "a", false⟩).2.saves :=
  AddItem_duplicate_keeps_first [] [] 0 ⟨7, "a", false⟩ ⟨7, "b", true⟩
    (by decide) (by decide) (by decide)

/-- C6: deleting an id absent from the loaded collection fails with the
not-found error whose message contains the offending id, and leaves the
loaded collection, the file and the save count untouched (`saveDB` is
not invoked on this path). -/
theorem DeleteItem_absent_spec (m : DbMap) (l : List ToDoItem) (w : Bool)
    (n : Nat) (id : Int)
    (habs : DbMap.lookup (mergeItems m l) id = none) :
    (DeleteItem ⟨m, some l, w, n⟩ id).1 =
      Except.error (GoError.deleteNotFound id) ∧
    (toString id).data <:+: (GoError.msg (GoError.deleteNotFound id)).data ∧
    (DeleteItem ⟨m, some l, w, n⟩ id).2 = ⟨mergeItems m l, some l, w, n⟩ := by
  rw [DeleteItem_absent m l w n id habs]
  refine ⟨rfl, ?_, rfl⟩
  refine ⟨("Couldn\x27t delete item because the id ").data, (" doesn\x27t exist").data, ?_⟩
  show _ = (GoError.msg (GoError.deleteNotFound id)).data
  rw [GoError.msg]
  simp [String.data_append]

theorem DeleteItem_absent_spec_witness :
    (DeleteItem ⟨[(1, ⟨1, "keep", false⟩)], some [], true, 0⟩ 2).1 =
      Except.error (GoError.deleteNotFound 2) ∧
    (toString (2 : Int)).data <:+: (GoError.msg (GoError.deleteNotFound 2)).data ∧
    (DeleteItem ⟨[(1, ⟨1, "keep", false⟩)], some [], true, 0⟩ 2).2 =
      ⟨mergeItems [(1, ⟨1, "keep", false⟩)] [], some [], true, 0⟩ :=
  DeleteItem_absent_spec [(1, ⟨1, "keep", false⟩)] [] true 0 2 (by decide)

/-- C7: updating a present id replaces the stored record wholesale;
`GetItem` afterwards returns exactly the item passed to `UpdateItem`,
every field included. -/
theorem UpdateItem_GetItem_exact (m : DbMap) (l : List ToDoItem) (n : Nat)
    (i2 old : ToDoItem) (hwf : DbMap.WF m)
    (hpres : DbMap.lookup (mergeItems m l) i2.Id = some old) :
    (UpdateItem ⟨m, some l, true, n⟩ i2).1 = Except.ok () ∧
    (GetItem (UpdateItem ⟨m, some l, true, n⟩ i2).2 i2.Id).1 = Except.ok i2 := by
  rw [UpdateItem_ok m l n i2 old hpres]
  refine ⟨rfl, ?_⟩
  have hwf2 : DbMap.WF (DbMap.insert (mergeItems m l) i2.Id i2) :=
    DbMap.WF_insert_id _ i2 (DbMap.WF_mergeItems m l hwf)
  have hself := mergeItems_values_self _ hwf2
  have hlook : DbMap.lookup (DbMap.insert (mergeItems m l) i2.Id i2) i2.Id = some i2 := by
    rw [DbMap.lookup_insert]
    simp
  have hload : DbMap.lookup
      (mergeItems (DbMap.insert (mergeItems m l) i2.Id i2)
        (DbMap.values (DbMap.insert (mergeItems m l) i2.Id i2))) i2.Id = some i2 := by
    rw [hself]
    exact hlook
  rw [GetItem_found _ _ _ _ _ _ hload]

theorem UpdateItem_GetItem_exact_witness :
    (UpdateItem ⟨[], some [⟨3, "t", false⟩], true, 0⟩ ⟨3, "new", true⟩).1 =
      Except.ok () ∧
    (GetItem (UpdateItem ⟨[], some [⟨3, "t", false⟩], true, 0⟩ ⟨3, "new", true⟩).2 3).1 =
      Except.ok ⟨3, "new", true⟩ :=
  UpdateItem_GetItem_exact [] [⟨3, "t", false⟩] 0 ⟨3, "new", true⟩ ⟨3, "t", false⟩
    (by decide) (by decide)

theorem ChangeStatus_found (m : DbMap) (l : List ToDoItem) (n : Nat) (id : Int)
    (v : Bool) (it y : ToDoItem)
    (hit : DbMap.lookup (mergeItems m l) id = some it)
    (hy : DbMap.lookup (mergeItems (mergeItems m l) l) it.Id = some y) :
    ChangeItemDoneStatus ⟨m, some l, true, n⟩ id v =
      (Except.ok (),
       ⟨DbMap.insert (mergeItems (mergeItems m l) l) it.Id ⟨it.Id, it.Title, v⟩,
        some (DbMap.values (DbMap.insert (mergeItems (mergeItems m l) l) it.Id
          ⟨it.Id, it.Title, v⟩)), true, n + 1⟩) := by
  have hcon := contains_true_of_lookup_some _ _ _ hy
  unfold ChangeItemDoneStatus GetItem UpdateItem loadDB saveDB
  simp [hit, hcon]

theorem ChangeStatus_notFound (m : DbMap) (l : List ToDoItem) (w : Bool) (n : Nat)
    (id : Int) (v : Bool)
    (habs : DbMap.lookup (mergeItems m l) id = none) :
    ChangeItemDoneStatus ⟨m, some l, w, n⟩ id v =
      (Except.error (GoError.getNotFound id), ⟨mergeItems m l, some l, w, n⟩) := by
  unfold ChangeItemDoneStatus GetItem loadDB
  simp [habs]

/-- C8: on a present id, `ChangeItemDoneStatus` succeeds and a subsequent
`GetItem` sees the same id and title with the done flag set to the given
value; on an absent id it fails with exactly the error `GetItem` returns
for that id, with no additional wrapping. -/
theorem ChangeItemDoneStatus_spec (m : DbMap) (l : List ToDoItem) (n : Nat)
    (id : Int) (v : Bool) (hwf : DbMap.WF m) :
    (∀ it, DbMap.lookup (mergeItems m l) id = some it →
      (ChangeItemDoneStatus ⟨m, some l, true, n⟩ id v).1 = Except.ok () ∧
      (GetItem (ChangeItemDoneStatus ⟨m, some l, true, n⟩ id v).2 id).1 =
        Except.ok ⟨it.Id, it.Title, v⟩) ∧
    (DbMap.lookup (mergeItems m l) id = none →
      (ChangeItemDoneStatus ⟨m, some l, true, n⟩ id v).1 =
        Except.error (GoError.getNotFound id) ∧
      (GetItem ⟨m, some l, true, n⟩ id).1 = Except.error (GoError.getNotFound id)) := by
  constructor
  · intro it hit
    have hwfM : DbMap.WF (mergeItems m l) := DbMap.WF_mergeItems m l hwf
    have hwfM2 : DbMap.WF (mergeItems (mergeItems m l) l) :=
      DbMap.WF_mergeItems _ l hwfM
    have hid : it.Id = id := DbMap.Id_of_lookup _ hwfM.2 hit
    have hex : ∃ y, DbMap.lookup (mergeItems (mergeItems m l) l) it.Id = some y := by
      rw [hid, lookup_mergeItems]
      cases hfl : findLast l id with
      | some x => exact ⟨x, rfl⟩
      | none => exact ⟨it, hit⟩
    obtain ⟨y, hy⟩ := hex
    rw [ChangeStatus_found m l n id v it y hit hy]
    refine ⟨rfl, ?_⟩
    have hwf3 : DbMap.WF (DbMap.insert (mergeItems (mergeItems m l) l) it.Id
        ⟨it.Id, it.Title, v⟩) :=
      DbMap.WF_insert_id _ ⟨it.Id, it.Title, v⟩ hwfM2
    have hself := mergeItems_values_self _ hwf3
    have hlook3 : DbMap.lookup (DbMap.insert (mergeItems (mergeItems m l) l) it.Id
        ⟨it.Id, it.Title, v⟩) id = some ⟨it.Id, it.Title, v⟩ := by
      rw [DbMap.lookup_insert, if_pos hid.symm]
    have hload : DbMap.lookup
        (mergeItems
          (DbMap.insert (mergeItems (mergeItems m l) l) it.Id ⟨it.Id, it.Title, v⟩)
          (DbMap.values (DbMap.insert (mergeItems (mergeItems m l) l) it.Id
            ⟨it.Id, it.Title, v⟩))) id = some ⟨it.Id, it.Title, v⟩ := by
      rw [hself]
      exact hlook3
    rw [GetItem_found _ _ _ _ _ _ hload]
  · intro habs
    rw [ChangeStatus_notFound m l true n id v habs,
      GetItem_notFound m l true n id habs]
    exact ⟨rfl, rfl⟩

theorem ChangeItemDoneStatus_spec_witness :
    ((ChangeItemDoneStatus ⟨[], some [⟨5, "t", false⟩], true, 0⟩ 5 true).1 =
        Except.ok () ∧
      (GetItem (ChangeItemDoneStatus ⟨[], some [⟨5, "t", false⟩], true, 0⟩ 5 true).2 5).1 =
        Except.ok ⟨5, "t", true⟩) ∧
    ((ChangeItemDoneStatus ⟨[], some [⟨5, "t", false⟩], true, 0⟩ 9 true).1 =
        Except.error (GoError.getNotFound 9) ∧
      (GetItem ⟨[], some [⟨5, "t", false⟩], true, 0⟩ 9).1 =
        Except.error (GoError.getNotFound 9)) :=
  ⟨(ChangeItemDoneStatus_spec [] [⟨5, "t", false⟩] 0 5 true (by decide)).1
      ⟨5, "t", false⟩ (by decide),
    (ChangeItemDoneStatus_spec [] [⟨5, "t", false⟩] 0 9 true (by decide)).2 (by decide)⟩

/-! ## RestoreDB: byte-level copy with injected I/O outcomes

`RestoreDB` opens the primary file with `O_WRONLY|O_TRUNC|O_CREATE`
(truncating it on a successful open), opens the backup, and loops: read
up to 1024 bytes from the backup; a read error other than EOF returns an
error; a zero-byte read prints a completion message and breaks; a failed
write to the primary only prints a message and the loop continues.  The
model runs the function against an environment fixing the outcome of
every file operation, and records the primary file's final bytes and
everything printed to the console. -/

/-- One result of `backupFile.Read(buffer)`: `chunk data` is a successful
read returning `data` (a `chunk []` is the zero-byte EOF read), `fail` is
a read error other than `io.EOF`. -/
inductive ReadStep where
  | chunk (data : List Nat)
  | fail
deriving DecidableEq, Repr

/-- A message printed to the console by `RestoreDB`:
`fmt.Println("finished copying from ", bak, " to ", db)` and
`fmt.Print("failed to write to ", db)`. -/
inductive ConsoleMsg where
  | finishedCopying (src dst : String)
  | failedWrite (dst : String)
deriving DecidableEq, Repr

/-- The outcomes of the file operations a run of `RestoreDB` performs:
whether the two opens succeed, the successive results of the backup
reads (when the list runs out, further reads return zero bytes, as a
file read at EOF does), which writes to the primary fail, and the bytes
the primary file held before the call. -/
structure RestoreEnv where
  openDbOk : Bool
  openBakOk : Bool
  reads : List ReadStep
  writeFails : List Bool
  primary0 : List Nat
deriving Repr

/-- The observable outcome of `RestoreDB`: the returned error value, the
final bytes of the primary file, and the console output in order.  A
failed write is modelled as writing nothing. -/
structure RestoreResult where
  result : Except GoError Unit
  primary : List Nat
  console : List ConsoleMsg
deriving Repr

/-- The copy loop of `RestoreDB`. -/
def copyLoop (bak dst : String) :
    List ReadStep → List Bool → List Nat → List ConsoleMsg → RestoreResult
  | [], _, acc, console =>
    { result := Except.ok (), primary := acc,
      console := console ++ [ConsoleMsg.finishedCopying bak dst] }
  | ReadStep.fail :: _, _, acc, console =>
    { result := Except.error (GoError.readFailed bak), primary := acc,
      console := console }
  | ReadStep.chunk [] :: _, _, acc, console =>
    { result := Except.ok (), primary := acc,
      console := console ++ [ConsoleMsg.finishedCopying bak dst] }
  | ReadStep.chunk (b :: bs) :: rest, wf, acc, console =>
    if wf.headD false then
      copyLoop bak dst rest wf.tail acc (console ++ [ConsoleMsg.failedWrite dst])
    else
      copyLoop bak dst rest wf.tail (acc ++ (b :: bs)) console

/-- `RestoreDB` on the db file name `dbFileName`.  The backup name is
`dbFileName + ".bak"`.  A successful open of the primary truncates it;
if the backup then fails to open, the primary is left empty. -/
def RestoreDB (dbFileName : String) (env : RestoreEnv) : RestoreResult :=
  let backupFileName := dbFileName ++ ".bak"
  if env.openDbOk = false then
    { result := Except.error (GoError.openFailed dbFileName),
      primary := env.primary0, console := [] }
  else if env.openBakOk = false then
    { result := Except.error (GoError.openFailed backupFileName),
      primary := [], console := [] }
  else
    copyLoop backupFileName dbFileName env.reads env.writeFails [] []

/-- The bytes of the backup file, as the read sequence exposes them:
everything read before the zero-byte read that ends the copy. -/
def backupContent : List ReadStep → List Nat
  | [] => []
  | ReadStep.fail :: _ => []
  | ReadStep.chunk [] :: _ => []
  | ReadStep.chunk (b :: bs) :: rest => (b :: bs) ++ backupContent rest

/-- An execution in which both opens succeed, the backup holds the single
byte 42, and the one write to the primary fails. -/
def writeFailEnv : RestoreEnv :=
  { openDbOk := true, openBakOk := true,
    reads := [ReadStep.chunk [42], ReadStep.chunk []],
    writeFails := [true], primary0 := [7] }

/-- C1 (code bug): in `writeFailEnv` the write to the primary fails, yet
`RestoreDB` returns success while the primary file holds no bytes and
the backup holds `[42]` — on success the primary is not byte-for-byte
the backup, contradicting the documented postcondition and the test
`TestRestoreDB`. -/
theorem RestoreDB_success_without_copy :
    (RestoreDB "todo.json" writeFailEnv).result = Except.ok () ∧
    (RestoreDB "todo.json" writeFailEnv).primary ≠
      backupContent writeFailEnv.reads := by
  refine ⟨rfl, ?_⟩
  decide

/-- An execution in which both opens succeed, the backup holds the bytes
1 and 2, and the one write to the primary fails. -/
def swallowEnv : RestoreEnv :=
  { openDbOk := true, openBakOk := true,
    reads := [ReadStep.chunk [1, 2], ReadStep.chunk []],
    writeFails := [true], primary0 := [] }

/-- C2 (code bug): a failed write to the primary is only printed
(`fmt.Print("failed to write to ", ...)`) and the loop continues;
`RestoreDB` still returns `nil` instead of an error. -/
theorem RestoreDB_swallows_write_error :
    (RestoreDB "todo.json" swallowEnv).result = Except.ok () ∧
    ConsoleMsg.failedWrite "todo.json" ∈ (RestoreDB "todo.json" swallowEnv).console := by
  constructor
  · rfl
  · show ConsoleMsg.failedWrite "todo.json" ∈
      [ConsoleMsg.failedWrite "todo.json",
       ConsoleMsg.finishedCopying ("todo.json" ++ ".bak") "todo.json"]
    exact List.mem_cons_self _ _

/-- An execution in which the whole copy succeeds. -/
def successEnv : RestoreEnv :=
  { openDbOk := true, openBakOk := true,
    reads := [ReadStep.chunk [3], ReadStep.chunk []],
    writeFails := [], primary0 := [] }

/-- C9 (counterexample): `RestoreDB` prints to the console even on a
fully successful run — the completion `fmt.Println` fires on every
execution that reaches the zero-byte read. -/
theorem RestoreDB_prints_on_success :
    (RestoreDB "todo.json" successEnv).result = Except.ok () ∧
    (RestoreDB "todo.json" successEnv).console ≠ [] := by
  refine ⟨rfl, ?_⟩
  decide

theorem copyLoop_ok_prints (bak dst : String) (reads : List ReadStep) :
    ∀ (wf : List Bool) (acc : List Nat) (console : List ConsoleMsg),
      (copyLoop bak dst reads wf acc console).result = Except.ok () →
      ConsoleMsg.finishedCopying bak dst ∈ (copyLoop bak dst reads wf acc console).console := by
  induction reads with
  | nil =>
    intro wf acc console _
    exact List.mem_append_right _ (List.mem_cons_self _ _)
  | cons step rest ih =>
    intro wf acc console h
    cases step with
    | fail => cases h
    | chunk data =>
      cases data with
      | nil => exact List.mem_append_right _ (List.mem_cons_self _ _)
      | cons b bs =>
        unfold copyLoop at h ⊢
        by_cases hw : wf.headD false = true
        · rw [if_pos hw] at h ⊢
          exact ih _ _ _ h
        · rw [if_neg hw] at h ⊢
          exact ih _ _ _ h

/-- C9 (amended): of the core operations only `RestoreDB` writes to the
console: every execution of it that returns success has printed the
completion message (and a failed write prints a failure message, see
`RestoreDB_swallows_write_error`); the CRUD operations return their
errors without printing. -/
theorem RestoreDB_success_always_prints (dbFileName : String) (env : RestoreEnv)
    (h : (RestoreDB dbFileName env).result = Except.ok ()) :
    ConsoleMsg.finishedCopying (dbFileName ++ ".bak") dbFileName ∈
      (RestoreDB dbFileName env).console := by
  unfold RestoreDB at h ⊢
  by_cases hdb : env.openDbOk = false
  · rw [if_pos hdb] at h
    cases h
  · rw [if_neg hdb] at h ⊢
    by_cases hbak : env.openBakOk = false
    · rw [if_pos hbak] at h
      cases h
    · rw [if_neg hbak] at h ⊢
      exact copyLoop_ok_prints _ _ env.reads env.writeFails [] [] h

theorem RestoreDB_success_always_prints_witness :
    ConsoleMsg.finishedCopying ("todo.json" ++ ".bak") "todo.json" ∈
      (RestoreDB "todo.json" successEnv).console :=
  RestoreDB_success_always_prints "todo.json" successEnv rfl


/-! ## JsonToItem: decoding a JSON value into a `ToDoItem`

`JsonToItem` runs `json.Unmarshal([]byte(jsonString), &item)` on a fresh
(zero-valued) item.  The model works on the JSON syntax tree a valid
text parses to; numbers are integers, which is all an item can hold.
Following `encoding/json` into a struct: a JSON `null` leaves the target
unchanged (so a top-level `null`, or a `null` member value, is a no-op);
otherwise the value must be an object; an object key is matched to the
field tags `id`/`title`/`done` preferring an exact match but also
accepting a case-insensitive one (`strings.EqualFold`; on these three
all-ASCII tags Go simple case folding coincides with ASCII lower-casing,
none of the letters i, d, t, l, e, o, n having a fold partner outside
ASCII, so the model folds keys character-wise with `Char.toLower`); a
matched member
must decode as number/string/boolean; keys matching no tag are ignored;
a duplicated key is decoded again, the later value winning; fields never
mentioned keep the zero value they started with. -/

inductive Json where
  | null
  | bool (b : Bool)
  | num (n : Int)
  | str (s : String)
  | arr (elems : List Json)
  | obj (fields : List (String × Json))

/-- The error class of `json.Unmarshal`: the text decodes to a value of
the wrong shape for the target. -/
inductive JsonErr where
  | typeMismatch
deriving DecidableEq, Repr

instance : DecidableEq (Except JsonErr ToDoItem) :=
  fun a b =>
    match a, b with
    | Except.ok x, Except.ok y =>
      if h : x = y then Decidable.isTrue (by rw [h]) else
        Decidable.isFalse (by intro hc; injection hc; contradiction)
    | Except.error x, Except.error y =>
      if h : x = y then Decidable.isTrue (by rw [h]) else
        Decidable.isFalse (by intro hc; injection hc; contradiction)
    | Except.ok _, Except.error _ =>
      Decidable.isFalse (by intro hc; injection hc)
    | Except.error _, Except.ok _ =>
      Decidable.isFalse (by intro hc; injection hc)

/-- `strings.EqualFold` as `encoding/json` applies it to these all-ASCII
field tags: compare the two strings character-wise after ASCII case
folding. -/
def eqFold (a b : String) : Bool :=
  a.data.map Char.toLower == b.data.map Char.toLower

/-- Decode one object member into the item being built.  A `null` value
leaves the matched field unchanged, as `json.Unmarshal` does. -/
def setField (item : ToDoItem) (key : String) (j : Json) : Except JsonErr ToDoItem :=
  if eqFold key "id" then
    match j with
    | Json.num n => Except.ok { item with Id := n }
    | Json.null => Except.ok item
    | _ => Except.error JsonErr.typeMismatch
  else if eqFold key "title" then
    match j with
    | Json.str t => Except.ok { item with Title := t }
    | Json.null => Except.ok item
    | _ => Except.error JsonErr.typeMismatch
  else if eqFold key "done" then
    match j with
    | Json.bool b => Except.ok { item with IsDone := b }
    | Json.null => Except.ok item
    | _ => Except.error JsonErr.typeMismatch
  else
    Except.ok item

def unmarshalFields (item : ToDoItem) : List (String × Json) → Except JsonErr ToDoItem
  | [] => Except.ok item
  | (k, v) :: rest =>
    match setField item k v with
    | Except.error e => Except.error e
    | Except.ok item2 => unmarshalFields item2 rest

/-- `JsonToItem` on the parsed form of its argument: unmarshal an object
into a zero-valued `ToDoItem`; a top-level `null` succeeds leaving the
zero value untouched. -/
def JsonToItem (j : Json) : Except JsonErr ToDoItem :=
  match j with
  | Json.obj fields => unmarshalFields ⟨0, "", false⟩ fields
  | Json.null => Except.ok ⟨0, "", false⟩
  | _ => Except.error JsonErr.typeMismatch

/-- An object member is well-typed for an item: if its key folds to one
of the three tagged names, its value has the matching primitive shape or
is `null`. -/
def fieldTyped (p : String × Json) : Prop :=
  (eqFold p.1 "id" = true → (∃ n, p.2 = Json.num n) ∨ p.2 = Json.null) ∧
  (eqFold p.1 "title" = true → (∃ t, p.2 = Json.str t) ∨ p.2 = Json.null) ∧
  (eqFold p.1 "done" = true → (∃ b, p.2 = Json.bool b) ∨ p.2 = Json.null)

theorem unmarshalFields_defaults (fields : List (String × Json)) :
    ∀ item0 : ToDoItem, (∀ p ∈ fields, fieldTyped p) →
      ∃ item, unmarshalFields item0 fields = Except.ok item ∧
        ((∀ p ∈ fields, eqFold p.1 "id" = false) → item.Id = item0.Id) ∧
        ((∀ p ∈ fields, eqFold p.1 "title" = false) → item.Title = item0.Title) ∧
        ((∀ p ∈ fields, eqFold p.1 "done" = false) → item.IsDone = item0.IsDone) := by
  induction fields with
  | nil =>
    intro item0 _
    exact ⟨item0, rfl, fun _ => rfl, fun _ => rfl, fun _ => rfl⟩
  | cons p rest ih =>
    intro item0 hT
    obtain ⟨hTid, hTtitle, hTdone⟩ := hT p (List.mem_cons_self p rest)
    have hTrest : ∀ q ∈ rest, fieldTyped q :=
      fun q hq => hT q (List.mem_cons_of_mem p hq)
    have step : ∃ item1, setField item0 p.1 p.2 = Except.ok item1 ∧
        (eqFold p.1 "id" = false → item1.Id = item0.Id) ∧
        (eqFold p.1 "title" = false → item1.Title = item0.Title) ∧
        (eqFold p.1 "done" = false → item1.IsDone = item0.IsDone) := by
      by_cases hid : eqFold p.1 "id" = true
      · have hv := hTid hid
        have hcontra : eqFold p.1 "id" = false → False := by
          intro hc
          rw [hid] at hc
          exact Bool.noConfusion hc
        rcases hv with ⟨n, hn⟩ | hn
        · refine ⟨{ item0 with Id := n }, ?_, ?_, ?_, ?_⟩
          · unfold setField
            rw [if_pos hid, hn]
          · intro hc
            exact absurd hc fun h => hcontra h
          · intro _
            rfl
          · intro _
            rfl
        · refine ⟨item0, ?_, fun _ => rfl, fun _ => rfl, fun _ => rfl⟩
          unfold setField
          rw [if_pos hid, hn]
      · by_cases htitle : eqFold p.1 "title" = true
        · have hv := hTtitle htitle
          have hcontra : eqFold p.1 "title" = false → False := by
            intro hc
            rw [htitle] at hc
            exact Bool.noConfusion hc
          rcases hv with ⟨t, ht⟩ | ht
          · refine ⟨{ item0 with Title := t }, ?_, ?_, ?_, ?_⟩
            · unfold setField
              rw [if_neg hid, if_pos htitle, ht]
            · intro _
              rfl
            · intro hc
              exact absurd hc fun h => hcontra h
            · intro _
              rfl
          · refine ⟨item0, ?_, fun _ => rfl, fun _ => rfl, fun _ => rfl⟩
            unfold setField
            rw [if_neg hid, if_pos htitle, ht]
        · by_cases hdone : eqFold p.1 "done" = true
          · have hv := hTdone hdone
            have hcontra : eqFold p.1 "done" = false → False := by
              intro hc
              rw [hdone] at hc
              exact Bool.noConfusion hc
            rcases hv with ⟨b, hb⟩ | hb
            · refine ⟨{ item0 with IsDone := b }, ?_, ?_, ?_, ?_⟩
              · unfold setField
                rw [if_neg hid, if_neg htitle, if_pos hdone, hb]
              · intro _
                rfl
              · intro _
                rfl
              · intro hc
                exact absurd hc fun h => hcontra h
            · refine ⟨item0, ?_, fun _ => rfl, fun _ => rfl, fun _ => rfl⟩
              unfold setField
              rw [if_neg hid, if_neg htitle, if_pos hdone, hb]
          · refine ⟨item0, ?_, fun _ => rfl, fun _ => rfl, fun _ => rfl⟩
            unfold setField
            rw [if_neg hid, if_neg htitle, if_neg hdone]
    obtain ⟨item1, hstep, hkid, hktitle, hkdone⟩ := step
    obtain ⟨item, hrest, hrid, hrtitle, hrdone⟩ := ih item1 hTrest
    refine ⟨item, ?_, ?_, ?_, ?_⟩
    · show (match setField item0 p.1 p.2 with
        | Except.error e => Except.error e
        | Except.ok item2 => unmarshalFields item2 rest) = Except.ok item
      rw [hstep]
      exact hrest
    · intro hall
      have h1 := hall p (List.mem_cons_self p rest)
      rw [hrid fun q hq => hall q (List.mem_cons_of_mem p hq)]
      exact hkid h1
    · intro hall
      have h1 := hall p (List.mem_cons_self p rest)
      rw [hrtitle fun q hq => hall q (List.mem_cons_of_mem p hq)]
      exact hktitle h1
    · intro hall
      have h1 := hall p (List.mem_cons_self p rest)
      rw [hrdone fun q hq => hall q (List.mem_cons_of_mem p hq)]
      exact hkdone h1

/-- C10: on a JSON object whose members are well-typed where their keys
match an item field (case-insensitively, as `encoding/json` matches),
`JsonToItem` succeeds (it does not reject missing fields), and every
field of `id`, `title`, `done` that no key of the object matches keeps
its zero value (`0`, `""`, `false`). -/
theorem JsonToItem_zero_defaults (fields : List (String × Json))
    (hT : ∀ p ∈ fields, fieldTyped p) :
    ∃ item, JsonToItem (Json.obj fields) = Except.ok item ∧
      ((∀ p ∈ fields, eqFold p.1 "id" = false) → item.Id = 0) ∧
      ((∀ p ∈ fields, eqFold p.1 "title" = false) → item.Title = "") ∧
      ((∀ p ∈ fields, eqFold p.1 "done" = false) → item.IsDone = false) :=
  unmarshalFields_defaults fields ⟨0, "", false⟩ hT

theorem JsonToItem_zero_defaults_witness :
    JsonToItem (Json.obj []) = Except.ok ⟨0, "", false⟩ ∧
    JsonToItem (Json.obj [("Title", Json.str "Learn")]) =
      Except.ok ⟨0, "Learn", false⟩ ∧
    JsonToItem (Json.obj [("Id", Json.num 3)]) = Except.ok ⟨3, "", false⟩ := by
  refine ⟨?_, by decide, by decide⟩
  obtain ⟨item, hok, hid, htitle, hdone⟩ :=
    JsonToItem_zero_defaults [] (fun p hp => absurd hp (List.not_mem_nil p))
  have h0 : item = ⟨0, "", false⟩ := by
    cases item
    simp only [ToDoItem.mk.injEq]
    exact ⟨hid fun p hp => absurd hp (List.not_mem_nil p),
      htitle fun p hp => absurd hp (List.not_mem_nil p),
      hdone fun p hp => absurd hp (List.not_mem_nil p)⟩
  rw [← h0]
  exact hok
